import Mathlib

/-!
Verification development for the link-in-bio backend.

The definitions below are a shallow embedding of the repository's core:
the link-ordering and access-control subsystem
(`services/link/link_service.py`, `repositories/link/link_repository.py`,
`core/base_repository.py`) and the token lifecycle
(`core/auth/auth_service.py`, `repositories/auth/refresh_token_repository.py`).

A database table is modelled as a `List` of rows in insertion order;
SQL `WHERE` clauses become `List.filter`, `ORDER BY order_index ASC`
becomes a merge sort on the filtered rows, `UPDATE ... WHERE` becomes a
`List.map` that rewrites matching rows in place, and SQLAlchemy's
`session.delete` removes the row.  Raising one of the application's typed
exceptions becomes returning `Except.error`; every mutating service
operation returns the value produced together with the resulting store,
and an operation that raises before writing returns the store unchanged.
-/

namespace LinkYoSelf

/-- The typed application errors of `core/exceptions.py` that the core
services raise. -/
inductive AppError where
  | notFound
  | permissionDenied
  | unauthorized
  | invalidCredentials
deriving Repr, DecidableEq

/-! ## Link data model (`models.py`, class `Link`) -/

/-- A row of the `links` table (`models.py`): user-owned link with the
`BaseModel` soft-delete flag `is_deleted`. -/
structure Link where
  id : Nat
  user_id : Nat
  title : String
  url : String
  description : Option String
  icon_url : Option String
  background_color : Option String
  text_color : Option String
  border_radius : Int
  is_active : Bool
  click_count : Int
  order_index : Int
  is_deleted : Bool
deriving Repr, DecidableEq

/-- The `LinkCreate` request DTO (`link_service_dto.py`): required title
and url, optional styling fields. -/
structure LinkCreate where
  title : String
  url : String
  description : Option String := none
  icon_url : Option String := none
  background_color : Option String := none
  text_color : Option String := none
  border_radius : Option Int := some 8
  is_active : Option Bool := some true
deriving Repr, DecidableEq

/-- The `LinkUpdate` patch DTO (`link_service_dto.py`): every field
optional; `none` models a field left unset (Pydantic `exclude_unset`). -/
structure LinkUpdate where
  title : Option String := none
  url : Option String := none
  description : Option String := none
  icon_url : Option String := none
  background_color : Option String := none
  text_color : Option String := none
  border_radius : Option Int := none
  is_active : Option Bool := none
deriving Repr, DecidableEq

/-! ## Link repository (`repositories/link/link_repository.py`,
`core/base_repository.py`) -/

/-- The `WHERE` clause of `LinkRepository.get_links_by_user`: rows of the
user, optionally restricted to active ones, never soft-deleted ones. -/
def linkRowMatches (uid : Nat) (includeInactive : Bool) (l : Link) : Bool :=
  l.user_id == uid && (includeInactive || l.is_active) && l.is_deleted == false

/-- Comparison modelling `ORDER BY Link.order_index ASC`. -/
def linkLE (a b : Link) : Prop :=
  a.order_index ≤ b.order_index

instance : DecidableRel linkLE :=
  fun a b => inferInstanceAs (Decidable (a.order_index ≤ b.order_index))

instance : IsTotal Link linkLE :=
  ⟨fun a b => le_total a.order_index b.order_index⟩

instance : IsTrans Link linkLE :=
  ⟨fun _ _ _ h h' => le_trans h h'⟩

/-- `LinkRepository.get_links_by_user`: the user's non-deleted rows
(optionally only active ones) sorted ascending by `order_index` (a
stable sort models the SQL ordering; ties never arise in the proved
properties). -/
def get_links_by_user (db : List Link) (uid : Nat) (includeInactive : Bool) : List Link :=
  (db.filter (linkRowMatches uid includeInactive)).insertionSort linkLE

/-- The `WHERE` clause of `LinkRepository.get_max_order_for_user`:
the user's rows, soft-deleted ones excluded. -/
def ownedNonDeleted (uid : Nat) (l : Link) : Bool :=
  l.user_id == uid && l.is_deleted == false

/-- `LinkRepository.get_max_order_for_user`:
`SELECT max(order_index) WHERE user_id = uid AND is_deleted = false`;
`none` when the user has no non-deleted rows (SQL `max` of no rows). -/
def get_max_order_for_user (db : List Link) (uid : Nat) : Option Int :=
  ((db.filter (ownedNonDeleted uid)).map (fun l => l.order_index)).max?

/-- `BaseRepository.get_by_id`: primary-key lookup, no soft-delete
filter (`session.get`). -/
def get_by_id (db : List Link) (lid : Nat) : Option Link :=
  db.find? (fun l => l.id == lid)

/-- `BaseRepository.update` via `LinkRepository.update_link`:
`session.add` + `flush` persists the modified entity over the row with
its primary key. -/
def saveLink (db : List Link) (l : Link) : List Link :=
  db.map fun x => if x.id == l.id then l else x

/-- The loop body of `LinkRepository.update_link_orders`: for each id at
position `pos` of the remaining list, `UPDATE links SET order_index =
pos+1 WHERE id = lid AND user_id = uid`, applied sequentially. -/
def update_link_orders (uid : Nat) (ids : List Nat) (pos : Nat) (db : List Link) : List Link :=
  match ids with
  | [] => db
  | lid :: rest =>
      update_link_orders uid rest (pos + 1)
        (db.map fun l =>
          if l.id == lid && l.user_id == uid then
            { l with order_index := ((pos + 1 : Nat) : Int) }
          else l)

/-! ## Link service (`services/link/link_service.py`) -/

/-- `LinkService.create_link`: the next `order_index` is
`(max_order or 0) + 1` (Python `or` also maps a stored `0` to `0`);
`border_radius or 8` likewise treats `0` as unset; the new row is
inserted with `click_count = 0`.  `newId` stands for the fresh
auto-increment primary key. -/
def create_link (db : List Link) (newId : Nat) (uid : Nat) (d : LinkCreate) :
    Link × List Link :=
  let maxOrder : Int := (get_max_order_for_user db uid).getD 0
  let radius : Int := d.border_radius.getD 0
  let link : Link :=
    { id := newId
      user_id := uid
      title := d.title
      url := d.url
      description := d.description
      icon_url := d.icon_url
      background_color := d.background_color
      text_color := d.text_color
      border_radius := if radius == 0 then 8 else radius
      is_active := d.is_active.getD true
      click_count := 0
      order_index := maxOrder + 1
      is_deleted := false }
  (link, db ++ [link])

/-- `LinkService.get_link_by_id`: `NotFound` when the row is absent,
`PermissionDenied` when the requester does not own it. -/
def get_link_by_id (db : List Link) (lid uid : Nat) : Except AppError Link :=
  match get_by_id db lid with
  | none => .error .notFound
  | some l => if l.user_id == uid then .ok l else .error .permissionDenied

/-- `LinkService.update_link` field merge: `model_dump(exclude_unset=True)`
followed by `setattr` for each supplied field. -/
def applyUpdate (l : Link) (u : LinkUpdate) : Link :=
  { l with
    title := u.title.getD l.title
    url := u.url.getD l.url
    description := match u.description with
      | none => l.description
      | some d => some d
    icon_url := match u.icon_url with
      | none => l.icon_url
      | some v => some v
    background_color := match u.background_color with
      | none => l.background_color
      | some v => some v
    text_color := match u.text_color with
      | none => l.text_color
      | some v => some v
    border_radius := u.border_radius.getD l.border_radius
    is_active := u.is_active.getD l.is_active }

/-- `LinkService.update_link`: ownership-checked load, patch, persist.
On an error the exception aborts before any write, so the store is
returned unchanged. -/
def update_link (db : List Link) (lid uid : Nat) (u : LinkUpdate) :
    Except AppError Link × List Link :=
  match get_link_by_id db lid uid with
  | .error e => (.error e, db)
  | .ok l =>
      let l' := applyUpdate l u
      (.ok l', saveLink db l')

/-- `LinkService.delete_link`: ownership-checked load, then
`LinkRepository.delete_link` → `BaseRepository.delete` →
`session.delete(entity)`, which removes the row from the table. -/
def delete_link (db : List Link) (lid uid : Nat) :
    Except AppError Unit × List Link :=
  match get_link_by_id db lid uid with
  | .error e => (.error e, db)
  | .ok l => (.ok (), db.filter fun x => !(x.id == l.id))

/-- `LinkService.toggle_link_status`: ownership-checked flip of
`is_active`, persisted. -/
def toggle_link_status (db : List Link) (lid uid : Nat) :
    Except AppError Link × List Link :=
  match get_link_by_id db lid uid with
  | .error e => (.error e, db)
  | .ok l =>
      let l' := { l with is_active := !l.is_active }
      (.ok l', saveLink db l')

/-- `LinkService.increment_click_count`: primary-key load with no
ownership parameter at all (public redirect endpoint), `click_count += 1`,
persist.  `NotFound` when the row is absent. -/
def increment_click_count (db : List Link) (lid : Nat) :
    Except AppError Link × List Link :=
  match get_by_id db lid with
  | none => (.error .notFound, db)
  | some l =>
      let l' := { l with click_count := l.click_count + 1 }
      (.ok l', saveLink db l')

/-- Python set equality `user_link_ids == request_link_ids` on id sets. -/
def sameIdSet (a b : List Nat) : Bool :=
  a.all (fun x => b.contains x) && b.all (fun x => a.contains x)

/-- `LinkService.reorder_links`: the requested ids must equal, as a set,
the ids of the user's non-deleted links (inactive included); on mismatch
`PermissionDenied` is raised before any write; on success the bulk
`order_index` rewrite runs and the refreshed listing is returned. -/
def reorder_links (db : List Link) (uid : Nat) (ids : List Nat) :
    Except AppError (List Link) × List Link :=
  let userLinks := get_links_by_user db uid true
  if sameIdSet (userLinks.map (fun l => l.id)) ids then
    let db' := update_link_orders uid ids 0 db
    (.ok (get_links_by_user db' uid true), db')
  else
    (.error .permissionDenied, db)

/-! ## Auth data model (`models.py`: `User`, `RefreshToken`;
`core/auth/auth_service.py`) -/

/-- The slice of the `users` table the token lifecycle touches. -/
structure AuthUser where
  id : Nat
  username : String
deriving Repr, DecidableEq

/-- A row of the `refresh_tokens` table (`models.py`). -/
structure RefreshTok where
  token : String
  user_id : Nat
  expires_at : Int
  is_revoked : Bool
deriving Repr, DecidableEq

/-- A signed JWT as produced by `jwt.encode(payload, secret_key,
algorithm)`: the claim set (`sub`, `exp`) plus a signature, modelled
abstractly as the secret and algorithm the signature binds (an
unforgeable MAC: verification with `(secret, alg)` succeeds exactly when
the token was signed with the same pair). -/
structure Jwt where
  sub : String
  exp : Int
  sig_secret : String
  sig_alg : String
deriving Repr, DecidableEq

/-- The decoded payload returned by `jwt.decode`. -/
structure Claims where
  sub : String
  exp : Int
deriving Repr, DecidableEq

/-- The state an `AuthService` instance operates over: the user and
refresh-token tables plus its configuration, with `now` the current
clock reading (`datetime.utcnow()`). -/
structure AuthState where
  users : List AuthUser
  tokens : List RefreshTok
  secret_key : String
  algorithm : String
  expire_minutes : Int
  now : Int
deriving Repr, DecidableEq

/-! ## Token lifecycle operations -/

/-- `AuthService.create_access_token` for payload `{"sub": sub}`:
the expiry claim is `now + expire_minutes` and the result is signed with
the service's secret and algorithm.  Time is carried in seconds. -/
def create_access_token (secret alg : String) (expireMinutes now : Int)
    (sub : String) : Jwt :=
  { sub := sub, exp := now + expireMinutes * 60, sig_secret := secret, sig_alg := alg }

/-- `AuthService.verify_token`: `jwt.decode` validates the signature
against the configured secret and algorithm and the expiry claim against
the clock; any failure is the uniform 401 error. -/
def verify_token (secret alg : String) (now : Int) (t : Jwt) :
    Except AppError Claims :=
  if t.sig_secret == secret && t.sig_alg == alg && decide (now < t.exp) then
    .ok { sub := t.sub, exp := t.exp }
  else
    .error .unauthorized

/-- `AuthService.verify_token` as the service runs it, reading the
configuration and clock from the service state.  The refresh-token and
user tables are not consulted. -/
def verifyAccessToken (s : AuthState) (t : Jwt) : Except AppError Claims :=
  verify_token s.secret_key s.algorithm s.now t

/-- `RefreshTokenRepository.get_valid_token`: first row whose value
matches and which is neither revoked nor expired
(`expires_at > datetime.utcnow()`). -/
def get_valid_token (tokens : List RefreshTok) (v : String) (now : Int) :
    Option RefreshTok :=
  tokens.find? fun t =>
    t.token == v && t.is_revoked == false && decide (now < t.expires_at)

/-- `AuthService.refresh_access_token`: look up a valid refresh token
(else 401), resolve the owning user (else 401), and mint a fresh access
token.  The function performs no writes, so the state comes back as it
went in. -/
def refresh_access_token (s : AuthState) (v : String) :
    Except AppError Jwt × AuthState :=
  match get_valid_token s.tokens v s.now with
  | none => (.error .unauthorized, s)
  | some t =>
      match s.users.find? (fun u => u.id == t.user_id) with
      | none => (.error .unauthorized, s)
      | some u =>
          (.ok (create_access_token s.secret_key s.algorithm s.expire_minutes
            s.now u.username), s)

/-- `RefreshTokenRepository.revoke_token` (via
`AuthService.revoke_refresh_token`):
`UPDATE refresh_tokens SET is_revoked = true WHERE token = v`. -/
def revoke_token (s : AuthState) (v : String) : AuthState :=
  { s with
    tokens := s.tokens.map fun t =>
      if t.token == v then { t with is_revoked := true } else t }

/-- `RefreshTokenRepository.revoke_all_user_tokens` (via
`AuthService.revoke_all_user_tokens`): `UPDATE refresh_tokens SET
is_revoked = true WHERE user_id = uid AND is_revoked = false`. -/
def revoke_all_user_tokens (s : AuthState) (uid : Nat) : AuthState :=
  { s with
    tokens := s.tokens.map fun t =>
      if t.user_id == uid && t.is_revoked == false then
        { t with is_revoked := true }
      else t }

/-! ## Concrete fixtures used by witnesses and counterexamples -/

/-- A link owned by user 1 at position 1. -/
def linkA : Link :=
  { id := 1, user_id := 1, title := "A", url := "https://a.example"
    description := none, icon_url := none, background_color := none
    text_color := none, border_radius := 8, is_active := true
    click_count := 0, order_index := 1, is_deleted := false }

/-- A link owned by user 1 at position 2. -/
def linkB : Link :=
  { linkA with id := 2, title := "B", url := "https://b.example", order_index := 2 }

/-- A link owned by user 1 at position 3. -/
def linkC : Link :=
  { linkA with id := 3, title := "C", url := "https://c.example", order_index := 3 }

/-- A minimal create request. -/
def reqT : LinkCreate := { title := "T", url := "https://t.example" }

/-- A user row. -/
def alice : AuthUser := { id := 1, username := "alice" }

/-- An unexpired, unrevoked refresh token for `alice`. -/
def tokR1 : RefreshTok :=
  { token := "r1", user_id := 1, expires_at := 1000, is_revoked := false }

/-- An auth state holding `alice` and her refresh token `r1`. -/
def st1 : AuthState :=
  { users := [alice], tokens := [tokR1], secret_key := "s3cret"
    algorithm := "HS256", expire_minutes := 30, now := 0 }

/-! ## Helper lemmas -/

/-- Python set equality of two id lists is extensional membership
equality. -/
theorem sameIdSet_eq_true_iff (a b : List Nat) :
    sameIdSet a b = true ↔ ∀ x : Nat, x ∈ a ↔ x ∈ b := by
  simp only [sameIdSet, Bool.and_eq_true, List.all_eq_true, List.contains,
    List.elem_eq_mem, decide_eq_true_eq]
  constructor
  · rintro ⟨h₁, h₂⟩ x
    exact ⟨fun hx => h₁ x hx, fun hx => h₂ x hx⟩
  · intro h
    exact ⟨fun x hx => (h x).mp hx, fun x hx => (h x).mpr hx⟩

/-- Writing back an entity whose primary key is present makes a
subsequent primary-key lookup return it. -/
theorem get_by_id_saveLink (db : List Link) (l' : Link) (lid : Nat)
    (hid : l'.id = lid) (h : ∃ l, get_by_id db lid = some l) :
    get_by_id (saveLink db l') lid = some l' := by
  induction db with
  | nil => simp [get_by_id] at h
  | cons x xs ih =>
      by_cases hx : x.id = lid
      · simp [get_by_id, saveLink, hx, hid]
      · obtain ⟨l, hl⟩ := h
        have hne : (x.id == lid) = false := by simp [hx]
        simp only [get_by_id, List.find?_cons, hne, cond_false] at hl
        have ih' := ih ⟨l, hl⟩
        simp only [get_by_id, saveLink, List.map_cons, List.find?_cons] at ih' ⊢
        rw [if_neg (by simp [hid, hx] : ¬ (x.id == l'.id) = true)]
        simp only [hne, cond_false]
        exact ih'

/-! ## Claim theorems -/

/-- C2: for every user and every id list whose membership does not
coincide exactly with the user's current non-deleted link ids (a missing
id, an extra id, or a foreign id), `reorder` fails with
`PermissionDenied` and the store — hence every link's `order_index` — is
unchanged. -/
theorem reorder_id_set_mismatch_denied (db : List Link) (uid : Nat) (ids : List Nat)
    (h : ¬ ∀ x : Nat, x ∈ (get_links_by_user db uid true).map (fun l => l.id) ↔ x ∈ ids) :
    reorder_links db uid ids = (.error .permissionDenied, db) := by
  have hs : sameIdSet ((get_links_by_user db uid true).map (fun l => l.id)) ids = false := by
    rcases hb : sameIdSet ((get_links_by_user db uid true).map (fun l => l.id)) ids
    · exact hb
    · exact absurd ((sameIdSet_eq_true_iff _ _).mp hb) h
  simp [reorder_links, hs]

/-- Witness for C2: user 1 has no links, yet id 2 is requested; the call
is denied and the (empty) store is untouched. -/
theorem reorder_id_set_mismatch_denied_witness :
    reorder_links [] 1 [2] = (.error .permissionDenied, []) :=
  reorder_id_set_mismatch_denied [] 1 [2] (fun hall => by
    have h2 := (hall 2).mpr (by simp)
    simp [get_links_by_user, linkRowMatches] at h2)

/-- C4: the spec and the model's own soft-delete apparatus
(`is_deleted` on `BaseModel`, every listing query filtering
`is_deleted == False` "for soft delete") say `delete` hides the row but
keeps it; the code instead reaches `BaseRepository.delete`, whose
`session.delete` physically removes the row.  Evaluated at the failing
input — the owner deleting their only link — the store is left empty and
no row with `is_deleted = true` persists. -/
theorem delete_link_removes_row :
    delete_link [linkA] 1 1 = (.ok (), ([] : List Link)) := by
  rfl

/-- C5: `update`, `delete` and `toggleActive` invoked by a requester who
is not the owner fail with `PermissionDenied` and return the store
unchanged; on an id with no row all three fail with `NotFound`, again
leaving the store unchanged. -/
theorem link_mutations_check_owner (db : List Link) (lid uidB : Nat) (u : LinkUpdate) :
    (∀ l, get_by_id db lid = some l → l.user_id ≠ uidB →
        update_link db lid uidB u = (.error .permissionDenied, db)
        ∧ delete_link db lid uidB = (.error .permissionDenied, db)
        ∧ toggle_link_status db lid uidB = (.error .permissionDenied, db))
    ∧ (get_by_id db lid = none →
        update_link db lid uidB u = (.error .notFound, db)
        ∧ delete_link db lid uidB = (.error .notFound, db)
        ∧ toggle_link_status db lid uidB = (.error .notFound, db)) := by
  constructor
  · intro l hl hne
    have hg : get_link_by_id db lid uidB = .error .permissionDenied := by
      simp [get_link_by_id, hl, hne]
    exact ⟨by simp [update_link, hg], by simp [delete_link, hg],
      by simp [toggle_link_status, hg]⟩
  · intro hn
    have hg : get_link_by_id db lid uidB = .error .notFound := by
      simp [get_link_by_id, hn]
    exact ⟨by simp [update_link, hg], by simp [delete_link, hg],
      by simp [toggle_link_status, hg]⟩

/-- Witness for C5: user 2 cannot mutate user 1's link, and id 99 is
`NotFound`. -/
theorem link_mutations_check_owner_witness :
    (update_link [linkA] 1 2 {} = (.error .permissionDenied, [linkA])
      ∧ delete_link [linkA] 1 2 = (.error .permissionDenied, [linkA])
      ∧ toggle_link_status [linkA] 1 2 = (.error .permissionDenied, [linkA]))
    ∧ (update_link [linkA] 99 2 {} = (.error .notFound, [linkA])
      ∧ delete_link [linkA] 99 2 = (.error .notFound, [linkA])
      ∧ toggle_link_status [linkA] 99 2 = (.error .notFound, [linkA])) :=
  ⟨(link_mutations_check_owner [linkA] 1 2 {}).1 linkA (by decide) (by decide),
   (link_mutations_check_owner [linkA] 99 2 {}).2 (by decide)⟩

/-- C7: `refreshAccess` performs no write to the refresh-token store
(no rotation): the state it returns is the state it was given, and a
successful call succeeds again, with the same token value and the same
result, when repeated on the state it returned. -/
theorem refresh_access_token_no_rotation (s : AuthState) (v : String) :
    (refresh_access_token s v).2 = s
    ∧ (∀ j, (refresh_access_token s v).1 = .ok j →
        (refresh_access_token (refresh_access_token s v).2 v).1 = .ok j) := by
  have h2 : (refresh_access_token s v).2 = s := by
    unfold refresh_access_token
    rcases hg : get_valid_token s.tokens v s.now with _ | t
    · rfl
    · rcases hu : s.users.find? (fun u => u.id == t.user_id) with _ | u <;> simp [hu]
  exact ⟨h2, fun j hj => by rw [h2]; exact hj⟩

/-- Witness for C7: refreshing with `r1` twice on `st1` succeeds both
times with the same freshly signed access token. -/
theorem refresh_access_token_no_rotation_witness :
    (refresh_access_token st1 "r1").2 = st1
    ∧ (refresh_access_token (refresh_access_token st1 "r1").2 "r1").1 =
        .ok { sub := "alice", exp := 1800, sig_secret := "s3cret", sig_alg := "HS256" } :=
  ⟨(refresh_access_token_no_rotation st1 "r1").1,
   (refresh_access_token_no_rotation st1 "r1").2
     { sub := "alice", exp := 1800, sig_secret := "s3cret", sig_alg := "HS256" }
     (by rfl)⟩

/-- C9: `incrementClick` takes no requester identity at all (no
ownership check is possible): on an existing row it succeeds, returns
the link with `click_count` increased by exactly 1, persists that row,
and leaves every other row in place; on an absent id it fails with
`NotFound` and leaves the store unchanged. -/
theorem increment_click_public (db : List Link) (lid : Nat) :
    (∀ l, get_by_id db lid = some l →
        (increment_click_count db lid).1 =
            .ok { l with click_count := l.click_count + 1 }
        ∧ get_by_id (increment_click_count db lid).2 lid =
            some { l with click_count := l.click_count + 1 }
        ∧ ∀ x ∈ db, x.id ≠ lid → x ∈ (increment_click_count db lid).2)
    ∧ (get_by_id db lid = none →
        increment_click_count db lid = (.error .notFound, db)) := by
  constructor
  · intro l hl
    have hlid : l.id = lid := by
      have := List.find?_some hl
      simpa using this
    refine ⟨by simp [increment_click_count, hl], ?_, ?_⟩
    · simp only [increment_click_count, hl]
      exact get_by_id_saveLink db _ lid (by simp [hlid]) ⟨l, hl⟩
    · intro x hx hxne
      simp only [increment_click_count, hl, saveLink]
      refine List.mem_map.mpr ⟨x, hx, ?_⟩
      rw [if_neg]
      simp [hlid, hxne]
  · intro hn
    simp [increment_click_count, hn]

/-- Witness for C9: clicking link 1 bumps its count from 0 to 1 and
keeps the row; clicking id 99 is `NotFound`. -/
theorem increment_click_public_witness :
    ((increment_click_count [linkA] 1).1 =
        .ok { linkA with click_count := 1 }
      ∧ get_by_id (increment_click_count [linkA] 1).2 1 =
          some { linkA with click_count := 1 })
    ∧ increment_click_count [linkA] 99 = (.error .notFound, [linkA]) :=
  ⟨⟨((increment_click_public [linkA] 1).1 linkA (by decide)).1,
    ((increment_click_public [linkA] 1).1 linkA (by decide)).2.1⟩,
   (increment_click_public [linkA] 99).2 (by decide)⟩

/-- C10: access-token verification reads only the signing secret, the
algorithm and the clock — never the refresh-token store: two states
agreeing on those three verify every token identically, and revoking one
token or all of a user's tokens leaves verification of every access
token unchanged, so an already-issued token that verifies keeps
verifying after a logout. -/
theorem verify_token_independent_of_token_store
    (s₁ s₂ : AuthState) (j : Jwt) (v : String) (uid : Nat)
    (hsec : s₁.secret_key = s₂.secret_key)
    (halg : s₁.algorithm = s₂.algorithm)
    (hnow : s₁.now = s₂.now) :
    verifyAccessToken s₁ j = verifyAccessToken s₂ j
    ∧ verifyAccessToken (revoke_token s₁ v) j = verifyAccessToken s₁ j
    ∧ verifyAccessToken (revoke_all_user_tokens s₁ uid) j = verifyAccessToken s₁ j
    ∧ (∀ c, verifyAccessToken s₁ j = .ok c →
        verifyAccessToken (revoke_token s₁ v) j = .ok c
        ∧ verifyAccessToken (revoke_all_user_tokens s₁ uid) j = .ok c) := by
  refine ⟨?_, rfl, rfl, fun c hc => ⟨hc, hc⟩⟩
  unfold verifyAccessToken
  rw [hsec, halg, hnow]

/-- Witness for C10: the same access token verifies identically on `st1`
and on `st1` with its whole token store dropped, and still verifies after
revoking `r1` or all of user 1's tokens. -/
theorem verify_token_independent_of_token_store_witness :
    (verifyAccessToken st1
        { sub := "alice", exp := 1800, sig_secret := "s3cret", sig_alg := "HS256" } =
      verifyAccessToken { st1 with tokens := [] }
        { sub := "alice", exp := 1800, sig_secret := "s3cret", sig_alg := "HS256" })
    ∧ verifyAccessToken (revoke_token st1 "r1")
        { sub := "alice", exp := 1800, sig_secret := "s3cret", sig_alg := "HS256" } =
      verifyAccessToken st1
        { sub := "alice", exp := 1800, sig_secret := "s3cret", sig_alg := "HS256" } :=
  ⟨(verify_token_independent_of_token_store st1 { st1 with tokens := [] }
      { sub := "alice", exp := 1800, sig_secret := "s3cret", sig_alg := "HS256" }
      "r1" 1 rfl rfl rfl).1,
   (verify_token_independent_of_token_store st1 st1
      { sub := "alice", exp := 1800, sig_secret := "s3cret", sig_alg := "HS256" }
      "r1" 1 rfl rfl rfl).2.1⟩

/-- C8: `revoke(v)` marks every stored token whose value is `v` revoked
(under the table's unique constraint: exactly that token), keeps all
other tokens as members and the user table and row count intact, is a
no-op when no stored token has value `v`, is idempotent, and afterwards
`refreshAccess(v)` fails with `Unauthorized`. -/
theorem revoke_token_exact_idempotent (s : AuthState) (v : String) :
    (∀ t ∈ s.tokens, t.token = v →
        { t with is_revoked := true } ∈ (revoke_token s v).tokens)
    ∧ (∀ t ∈ s.tokens, t.token ≠ v → t ∈ (revoke_token s v).tokens)
    ∧ (revoke_token s v).tokens.length = s.tokens.length
    ∧ (revoke_token s v).users = s.users
    ∧ ((∀ t ∈ s.tokens, t.token ≠ v) → revoke_token s v = s)
    ∧ revoke_token (revoke_token s v) v = revoke_token s v
    ∧ (refresh_access_token (revoke_token s v) v).1 = .error .unauthorized := by
  refine ⟨?_, ?_, by simp [revoke_token], rfl, ?_, ?_, ?_⟩
  · intro t ht htv
    exact List.mem_map.mpr ⟨t, ht, by simp [htv]⟩
  · intro t ht htv
    exact List.mem_map.mpr ⟨t, ht, by simp [htv]⟩
  · intro hall
    have hmap : (s.tokens.map fun t =>
        if t.token == v then { t with is_revoked := true } else t) = s.tokens := by
      have h1 : ∀ t ∈ s.tokens,
          (if t.token == v then { t with is_revoked := true } else t) = id t :=
        fun t ht => by simp [hall t ht]
      rw [List.map_congr_left h1, List.map_id]
    show { s with tokens := _ } = s
    rw [hmap]
  · show { s with tokens := _ } = { s with tokens := _ }
    simp only [revoke_token, List.map_map]
    congr 1
    refine List.map_congr_left (fun t _ => ?_)
    by_cases htv : t.token = v <;> simp [htv]
  · have hnone : get_valid_token (revoke_token s v).tokens v
        (revoke_token s v).now = none := by
      refine List.find?_eq_none.mpr (fun x hx => ?_)
      rcases List.mem_map.mp hx with ⟨t, _, rfl⟩
      by_cases htv : t.token = v <;> simp [htv]
    simp only [refresh_access_token, hnone]

/-- Witness for C8: revoking `r1` on `st1` marks it revoked, keeps the
users and length, is idempotent, and makes a refresh with `r1` fail. -/
theorem revoke_token_exact_idempotent_witness :
    { tokR1 with is_revoked := true } ∈ (revoke_token st1 "r1").tokens
    ∧ (revoke_token st1 "r1").tokens.length = st1.tokens.length
    ∧ (revoke_token st1 "r1").users = st1.users
    ∧ revoke_token (revoke_token st1 "r1") "r1" = revoke_token st1 "r1"
    ∧ (refresh_access_token (revoke_token st1 "r1") "r1").1 =
        .error .unauthorized :=
  ⟨(revoke_token_exact_idempotent st1 "r1").1 tokR1 (by decide) (by decide),
   (revoke_token_exact_idempotent st1 "r1").2.2.1,
   (revoke_token_exact_idempotent st1 "r1").2.2.2.1,
   (revoke_token_exact_idempotent st1 "r1").2.2.2.2.2.1,
   (revoke_token_exact_idempotent st1 "r1").2.2.2.2.2.2⟩

/-- C6: with unique stored token values (the table's unique constraint)
and a positive access-token lifetime, `refreshAccess(v)` returns a
newly signed access token that verifies against the service's secret,
algorithm and clock exactly when some stored token with value `v` is
unrevoked and unexpired and its owning user exists; in every other case
it fails with `Unauthorized`. -/
theorem refresh_access_token_valid_iff (s : AuthState) (v : String)
    (hnd : (s.tokens.map (fun t => t.token)).Nodup)
    (hem : 0 < s.expire_minutes) :
    ((∃ t ∈ s.tokens, t.token = v ∧ t.is_revoked = false ∧ s.now < t.expires_at
        ∧ ∃ u ∈ s.users, u.id = t.user_id) →
      ∃ j, (refresh_access_token s v).1 = .ok j
        ∧ ∃ c, verifyAccessToken s j = .ok c)
    ∧ ((¬ ∃ t ∈ s.tokens, t.token = v ∧ t.is_revoked = false ∧ s.now < t.expires_at
        ∧ ∃ u ∈ s.users, u.id = t.user_id) →
      (refresh_access_token s v).1 = .error .unauthorized) := by
  constructor
  · rintro ⟨t, ht, htv, hrev, hexp, u, hu, hid⟩
    rcases hsome : get_valid_token s.tokens v s.now with _ | t'
    · exfalso
      have := List.find?_eq_none.mp hsome t ht
      simp [htv, hrev, hexp] at this
    · have hpred := List.find?_some hsome
      have ht'mem := List.mem_of_find?_eq_some hsome
      simp only [Bool.and_eq_true, beq_iff_eq, decide_eq_true_eq] at hpred
      have ht'eq : t' = t :=
        List.inj_on_of_nodup_map hnd ht'mem ht (by rw [hpred.1.1, htv])
      subst ht'eq
      rcases husome : s.users.find? (fun w => w.id == t'.user_id) with _ | u'
      · exfalso
        have := List.find?_eq_none.mp husome u hu
        simp [hid] at this
      · refine ⟨create_access_token s.secret_key s.algorithm s.expire_minutes
          s.now u'.username, ?_, ?_⟩
        · simp [refresh_access_token, hsome, husome]
        · have hlt : s.now < s.now + s.expire_minutes * 60 := by omega
          exact ⟨Claims.mk u'.username (s.now + s.expire_minutes * 60),
            by simp [verifyAccessToken, verify_token, create_access_token, hlt]⟩
  · intro hnot
    rcases hsome : get_valid_token s.tokens v s.now with _ | t'
    · simp [refresh_access_token, hsome]
    · have hpred := List.find?_some hsome
      have ht'mem := List.mem_of_find?_eq_some hsome
      simp only [Bool.and_eq_true, beq_iff_eq, decide_eq_true_eq] at hpred
      rcases husome : s.users.find? (fun w => w.id == t'.user_id) with _ | u'
      · simp [refresh_access_token, hsome, husome]
      · exfalso
        have hu'pred := List.find?_some husome
        have hu'mem := List.mem_of_find?_eq_some husome
        simp only [beq_iff_eq] at hu'pred
        exact hnot ⟨t', ht'mem, hpred.1.1, hpred.1.2, hpred.2, u', hu'mem, hu'pred⟩

/-- Witness for C6: on `st1` the stored token `r1` is valid and owned by
`alice`, so the refresh succeeds with a verifiable token; and with value
`zz` nothing matches, so the refresh is rejected. -/
theorem refresh_access_token_valid_iff_witness :
    (∃ j, (refresh_access_token st1 "r1").1 = .ok j
      ∧ ∃ c, verifyAccessToken st1 j = .ok c)
    ∧ (refresh_access_token st1 "zz").1 = .error .unauthorized :=
  ⟨(refresh_access_token_valid_iff st1 "r1" (by decide) (by decide)).1
      ⟨tokR1, by decide, rfl, rfl, by decide, alice, by decide, rfl⟩,
   (refresh_access_token_valid_iff st1 "zz" (by decide) (by decide)).2
      (fun habs => by
        rcases habs with ⟨t, ht, htv, _⟩
        have : t = tokR1 := by
          simpa [st1] using ht
        rw [this] at htv
        simp [tokR1] at htv)⟩

/-- C3, counterexample: `create` computes `max(order_index)+1`, not
`count+1`.  Reached through the operations themselves: user 1 creates
two links (orders 1, 2) and deletes the first; one non-deleted link
remains (N = 1), yet the next `create` inserts at `order_index = 3`,
not `N + 1 = 2`. -/
theorem create_link_order_counterexample :
    (get_links_by_user
        (delete_link (create_link (create_link [] 1 1 reqT).2 2 1 reqT).2 1 1).2
        1 true).length = 1
    ∧ (create_link
        (delete_link (create_link (create_link [] 1 1 reqT).2 2 1 reqT).2 1 1).2
        3 1 reqT).1.order_index = 3
    ∧ (create_link
        (delete_link (create_link (create_link [] 1 1 reqT).2 2 1 reqT).2 1 1).2
        3 1 reqT).1.order_index ≠ 1 + 1 := by
  refine ⟨by decide, by decide, by decide⟩

/-- C3, amended: `create` inserts at `max(order_index over the user's
non-deleted links) + 1` (or `1` when there are none); this equals `N+1`
exactly on stores where the user's N non-deleted links carry the dense
order indexes `1..N`, as the claim presumes. -/
theorem create_link_appends_at_end (db : List Link) (newId uid : Nat)
    (d : LinkCreate) (N : Nat)
    (hdense : ((db.filter (ownedNonDeleted uid)).map
        (fun l => l.order_index)).Perm
      ((List.range N).map (fun (i : Nat) => (i : Int) + 1))) :
    (create_link db newId uid d).1.order_index = (N : Int) + 1 := by
  haveI anti : Std.Antisymm ((· : Int) ≤ ·) := ⟨fun h h' => le_antisymm h h'⟩
  rcases Nat.eq_zero_or_pos N with hN | hN
  · subst hN
    have hnil : ((db.filter (ownedNonDeleted uid)).map
        (fun l => l.order_index)) = [] := by
      simpa using hdense.eq_nil
    simp [create_link, get_max_order_for_user, hnil]
  · have hmax : ((db.filter (ownedNonDeleted uid)).map
        (fun l => l.order_index)).max? = some ((N : Int)) := by
      rw [List.max?_eq_some_iff (fun a : Int => le_refl a)
        (fun a b => max_choice a b) (fun a b c => max_le_iff)]
      constructor
      · refine hdense.mem_iff.mpr ?_
        refine List.mem_map.mpr ⟨N - 1, List.mem_range.mpr (by omega), ?_⟩
        omega
      · intro b hb
        rcases List.mem_map.mp (hdense.mem_iff.mp hb) with ⟨i, hi, rfl⟩
        have := List.mem_range.mp hi
        omega
    simp [create_link, get_max_order_for_user, hmax]

/-- Witness for C3, amended: user 1's only non-deleted link sits at
order 1 (N = 1), and `create` inserts at order 2. -/
theorem create_link_appends_at_end_witness :
    (create_link [linkA] 9 1 reqT).1.order_index = ((1 : Nat) : Int) + 1 :=
  create_link_appends_at_end [linkA] 9 1 reqT 1 (by decide)

/-- The sequential `UPDATE` loop of `update_link_orders`, run on a
duplicate-free id list, rewrites each matching row's `order_index` to
`pos + (position of its id) + 1` and leaves every other row alone. -/
theorem update_link_orders_eq_map (uid : Nat) :
    ∀ (ids : List Nat) (pos : Nat) (db : List Link), ids.Nodup →
      update_link_orders uid ids pos db = db.map (fun l =>
        if l.user_id = uid ∧ l.id ∈ ids then
          { l with order_index := ((pos + ids.indexOf l.id + 1 : Nat) : Int) }
        else l)
  | [], pos, db, _ => by
      simp [update_link_orders]
  | lid :: rest, pos, db, h => by
      have hlid : lid ∉ rest := (List.nodup_cons.mp h).1
      have hrest : rest.Nodup := (List.nodup_cons.mp h).2
      show update_link_orders uid rest (pos + 1)
          (db.map fun l =>
            if l.id == lid && l.user_id == uid then
              { l with order_index := ((pos + 1 : Nat) : Int) }
            else l) = _
      rw [update_link_orders_eq_map uid rest (pos + 1) _ hrest, List.map_map]
      refine List.map_congr_left (fun l _ => ?_)
      by_cases h1 : l.id = lid
      · by_cases h2 : l.user_id = uid
        · simp [Function.comp, h1, h2, hlid, List.indexOf_cons_self]
        · simp [Function.comp, h1, h2]
      · by_cases h3 : l.user_id = uid
        · by_cases h4 : l.id ∈ rest
          · have hg : (if l.id == lid && l.user_id == uid then
                { l with order_index := ((pos + 1 : Nat) : Int) } else l) = l := by
              simp [h1]
            simp only [Function.comp_apply, hg]
            rw [if_pos ⟨h3, h4⟩, if_pos ⟨h3, List.mem_cons_of_mem _ h4⟩,
              List.indexOf_cons_ne _ (Ne.symm h1)]
            congr 1
            omega
          · simp [Function.comp, h1, h3, h4]
        · simp [Function.comp, h1, h3]

/-- In a duplicate-free list, mapping every element to its index yields
`0, 1, ..., length-1`. -/
theorem map_indexOf_of_nodup (ids : List Nat) (h : ids.Nodup) :
    ids.map (fun x => ids.indexOf x) = List.range ids.length := by
  refine List.ext_getElem (by simp) ?_
  intro i h1 h2
  simp only [List.getElem_map, List.getElem_range]
  exact List.indexOf_getElem h i (by simpa using h1)

/-- The target order-index column `1, 2, ..., N` is weakly sorted. -/
theorem pairwise_le_range_succ_cast (N : Nat) :
    ((List.range N).map (fun (i : Nat) => (i : Int) + 1)).Pairwise (· ≤ ·) := by
  refine List.pairwise_map.mpr ?_
  exact (List.pairwise_lt_range N).imp (fun h => by omega)

/-- C1: for a store with unique primary keys and a request list `ids`
that is a permutation of the user's current non-deleted link ids
(inactive included), `reorder` succeeds; in the resulting store the link
whose id sits at position `i` of `ids` has `order_index = i + 1`, and
the listing the call returns — `listForUser(uid, includeInactive=true)`
on the updated store — is exactly the links in the order of `ids` with
order indexes `1..N`. -/
theorem reorder_links_permutation (db : List Link) (uid : Nat) (ids : List Nat)
    (hdb : (db.map (fun l => l.id)).Nodup)
    (hids : ids.Perm ((get_links_by_user db uid true).map (fun l => l.id))) :
    ∃ res,
      reorder_links db uid ids = (.ok res, update_link_orders uid ids 0 db)
      ∧ res = get_links_by_user (update_link_orders uid ids 0 db) uid true
      ∧ res.map (fun l => l.id) = ids
      ∧ res.map (fun l => l.order_index) =
          (List.range ids.length).map (fun (i : Nat) => (i : Int) + 1)
      ∧ (∀ l ∈ update_link_orders uid ids 0 db, l.id ∈ ids →
          l.order_index = (ids.indexOf l.id : Int) + 1) := by
  have hsortperm :
      ((db.filter (linkRowMatches uid true)).insertionSort linkLE).Perm
        (db.filter (linkRowMatches uid true)) :=
    List.perm_insertionSort _ _
  have hGperm :
      ((db.filter (linkRowMatches uid true)).map (fun l => l.id)).Perm ids :=
    (hids.trans (hsortperm.map _)).symm
  have hGidsnodup :
      ((db.filter (linkRowMatches uid true)).map (fun l => l.id)).Nodup :=
    ((List.filter_sublist db).map (fun l => l.id)).nodup hdb
  have hidsnodup : ids.Nodup := hGperm.nodup hGidsnodup
  have hss : sameIdSet ((get_links_by_user db uid true).map (fun l => l.id)) ids = true :=
    (sameIdSet_eq_true_iff _ _).mpr (fun x => (hids.symm).mem_iff)
  have hupd : update_link_orders uid ids 0 db = db.map (fun l =>
      if l.user_id = uid ∧ l.id ∈ ids then
        { l with order_index := ((0 + ids.indexOf l.id + 1 : Nat) : Int) }
      else l) :=
    update_link_orders_eq_map uid ids 0 db hidsnodup
  have hGf : ∀ y ∈ db.filter (linkRowMatches uid true),
      (if y.user_id = uid ∧ y.id ∈ ids then
        { y with order_index := ((0 + ids.indexOf y.id + 1 : Nat) : Int) }
      else y) =
      { y with order_index := ((0 + ids.indexOf y.id + 1 : Nat) : Int) } := by
    intro y hy
    have hPy := List.of_mem_filter hy
    simp only [linkRowMatches, Bool.and_eq_true, beq_iff_eq] at hPy
    have hyid : y.id ∈ ids :=
      hGperm.mem_iff.mp (List.mem_map.mpr ⟨y, hy, rfl⟩)
    rw [if_pos ⟨hPy.1.1, hyid⟩]
  have hfilter : ((db.map (fun l =>
      if l.user_id = uid ∧ l.id ∈ ids then
        { l with order_index := ((0 + ids.indexOf l.id + 1 : Nat) : Int) }
      else l)).filter (linkRowMatches uid true)) =
      (db.filter (linkRowMatches uid true)).map (fun l =>
        if l.user_id = uid ∧ l.id ∈ ids then
          { l with order_index := ((0 + ids.indexOf l.id + 1 : Nat) : Int) }
        else l) := by
    rw [List.filter_map]
    congr 1
    refine List.filter_congr (fun x _ => ?_)
    by_cases hc : x.user_id = uid ∧ x.id ∈ ids
    · simp [hc, linkRowMatches]
    · simp [hc]
  set f : Link → Link := (fun l =>
      if l.user_id = uid ∧ l.id ∈ ids then
        { l with order_index := ((0 + ids.indexOf l.id + 1 : Nat) : Int) }
      else l) with hfdef
  have hres_eq : get_links_by_user (update_link_orders uid ids 0 db) uid true
      = ((db.filter (linkRowMatches uid true)).map f).insertionSort linkLE := by
    rw [get_links_by_user, hupd, hfilter]
  have hresperm : (get_links_by_user (update_link_orders uid ids 0 db) uid true).Perm
      ((db.filter (linkRowMatches uid true)).map f) := by
    rw [hres_eq]; exact List.perm_insertionSort _ _
  have hsorted : List.Sorted linkLE
      (get_links_by_user (update_link_orders uid ids 0 db) uid true) := by
    rw [hres_eq]; exact List.sorted_insertionSort _ _
  have hpair : ((get_links_by_user (update_link_orders uid ids 0 db) uid true).map
      (fun l => l.order_index)).Pairwise (· ≤ · : Int → Int → Prop) :=
    List.pairwise_map.mpr hsorted
  have hoiperm : ((get_links_by_user (update_link_orders uid ids 0 db) uid true).map
      (fun l => l.order_index)).Perm
      ((List.range ids.length).map (fun (i : Nat) => (i : Int) + 1)) := by
    have s1 : (((db.filter (linkRowMatches uid true)).map f).map
        (fun l => l.order_index)) =
        (db.filter (linkRowMatches uid true)).map
          (fun y => ((0 + ids.indexOf y.id + 1 : Nat) : Int)) := by
      rw [List.map_map]
      refine List.map_congr_left (fun y hy => ?_)
      simp only [Function.comp_apply, hfdef]
      rw [hGf y hy]
    have s2 : ((db.filter (linkRowMatches uid true)).map
        (fun y => ((0 + ids.indexOf y.id + 1 : Nat) : Int))) =
        (((db.filter (linkRowMatches uid true)).map (fun l => l.id)).map
          (fun x => ((0 + ids.indexOf x + 1 : Nat) : Int))) := by
      rw [List.map_map]
      rfl
    have s3 : (ids.map (fun x => ((0 + ids.indexOf x + 1 : Nat) : Int))) =
        (List.range ids.length).map (fun (i : Nat) => (i : Int) + 1) := by
      have s4 : (ids.map (fun x => ((0 + ids.indexOf x + 1 : Nat) : Int))) =
          (ids.map (fun x => ids.indexOf x)).map (fun (n : Nat) => (n : Int) + 1) := by
        rw [List.map_map]
        refine List.map_congr_left (fun x _ => ?_)
        simp only [Function.comp_apply]
        omega
      rw [s4, map_indexOf_of_nodup ids hidsnodup]
    have t1 := hresperm.map (fun l => l.order_index)
    rw [s1, s2] at t1
    have t3 := hGperm.map (fun x => ((0 + ids.indexOf x + 1 : Nat) : Int))
    have t4 := t1.trans t3
    rw [s3] at t4
    exact t4
  have hoi : ((get_links_by_user (update_link_orders uid ids 0 db) uid true).map
      (fun l => l.order_index)) =
      (List.range ids.length).map (fun (i : Nat) => (i : Int) + 1) :=
    List.eq_of_perm_of_sorted hoiperm hpair (pairwise_le_range_succ_cast ids.length)
  have hlen : (get_links_by_user (update_link_orders uid ids 0 db) uid true).length =
      ids.length := by
    have h1 := hresperm.length_eq
    have h2 := hGperm.length_eq
    simp only [List.length_map] at h1 h2
    omega
  have hall : ∀ l ∈ update_link_orders uid ids 0 db, l.id ∈ ids →
      l.order_index = (ids.indexOf l.id : Int) + 1 := by
    intro l hl hlid
    rw [hupd] at hl
    rcases List.mem_map.mp hl with ⟨x, hx, rfl⟩
    by_cases hc : x.user_id = uid ∧ x.id ∈ ids
    · simp only [hfdef]
      rw [if_pos hc]
      dsimp only
      omega
    · exfalso
      simp only [hfdef] at hlid
      rw [if_neg hc] at hlid
      rcases List.mem_map.mp (hGperm.mem_iff.mpr hlid) with ⟨y, hyG, hyid⟩
      have hydb : y ∈ db := List.mem_of_mem_filter hyG
      have hxy : x = y := List.inj_on_of_nodup_map hdb hx hydb hyid.symm
      have hPy := List.of_mem_filter hyG
      simp only [linkRowMatches, Bool.and_eq_true, beq_iff_eq] at hPy
      exact hc ⟨by rw [hxy]; exact hPy.1.1, hlid⟩
  have hid : ((get_links_by_user (update_link_orders uid ids 0 db) uid true).map
      (fun l => l.id)) = ids := by
    refine List.ext_getElem (by simpa using hlen) ?_
    intro i h1 h2
    have hri : i < (get_links_by_user (update_link_orders uid ids 0 db) uid true).length := by
      simpa using h1
    have hmemres : (get_links_by_user (update_link_orders uid ids 0 db) uid true)[i]
        ∈ get_links_by_user (update_link_orders uid ids 0 db) uid true :=
      List.getElem_mem hri
    rcases List.mem_map.mp (hresperm.mem_iff.mp hmemres) with ⟨y, hyG, hyf⟩
    have hfy : (get_links_by_user (update_link_orders uid ids 0 db) uid true)[i] =
        { y with order_index := ((0 + ids.indexOf y.id + 1 : Nat) : Int) } := by
      rw [← hyf]
      simp only [hfdef]
      exact hGf y hyG
    have h4 : ((get_links_by_user (update_link_orders uid ids 0 db) uid true).map
        (fun l => l.order_index))[i]? =
        some ((get_links_by_user (update_link_orders uid ids 0 db) uid true)[i]).order_index := by
      simp [hri]
    have h5 : ((List.range ids.length).map (fun (i : Nat) => (i : Int) + 1))[i]? =
        some ((i : Int) + 1) := by
      simp [h2]
    rw [hoi, h5] at h4
    have h3 : ((get_links_by_user (update_link_orders uid ids 0 db) uid true)[i]).order_index
        = (i : Int) + 1 := (Option.some.inj h4).symm
    have h6 : ids.indexOf y.id = i := by
      rw [hfy] at h3
      dsimp only at h3
      omega
    have hyid_mem : y.id ∈ ids :=
      hGperm.mem_iff.mp (List.mem_map.mpr ⟨y, hyG, rfl⟩)
    have h7 : ids[i]? = some y.id := by
      rw [← h6]; exact List.getElem?_indexOf hyid_mem
    have h8 : ids[i]? = some ids[i] := List.getElem?_eq_getElem h2
    have h9 : ids[i] = y.id := Option.some.inj (h8.symm.trans h7)
    simp only [List.getElem_map]
    rw [hfy, h9]
  exact ⟨get_links_by_user (update_link_orders uid ids 0 db) uid true,
    by simp [reorder_links, hss], rfl, hid, hoi, hall⟩

/-- Witness for C1: user 1's links A, B, C (orders 1, 2, 3) reordered by
`[3, 1, 2]` come back as C, A, B with order indexes 1, 2, 3. -/
theorem reorder_links_permutation_witness :
    ∃ res,
      reorder_links [linkA, linkB, linkC] 1 [3, 1, 2] =
        (.ok res, update_link_orders 1 [3, 1, 2] 0 [linkA, linkB, linkC])
      ∧ res = get_links_by_user
          (update_link_orders 1 [3, 1, 2] 0 [linkA, linkB, linkC]) 1 true
      ∧ res.map (fun l => l.id) = [3, 1, 2]
      ∧ res.map (fun l => l.order_index) =
          (List.range [3, 1, 2].length).map (fun (i : Nat) => (i : Int) + 1)
      ∧ (∀ l ∈ update_link_orders 1 [3, 1, 2] 0 [linkA, linkB, linkC],
          l.id ∈ [3, 1, 2] →
          l.order_index = ([3, 1, 2].indexOf l.id : Int) + 1) :=
  reorder_links_permutation [linkA, linkB, linkC] 1 [3, 1, 2]
    (by decide) (by decide)

end LinkYoSelf
